import Mathlib

set_option autoImplicit false

/-!
Shallow embedding of the chatapp backend's real-time core: the room
lifecycle service (`RoomService`), the message service (`MessageService`),
the socket fan-out service (`SocketService`) and the connection protocol
handlers (`socketHandler`).  Dates are modelled as natural-number
timestamps; the Mongo document store is modelled as an in-memory list of
documents keyed by the source's query keys.
-/

namespace Chatapp

/-- A room participant entry, as stored in a `PersistedRoom` document
(`RoomParticipant` in `roomService.ts`). -/
structure Participant where
  userId : String
  username : String
  email : String
  joinedAt : Nat
  role : String
  isActive : Bool
  lastSeen : Option Nat
deriving Repr, DecidableEq

/-- A persisted room document (the `Room` mongoose model). -/
structure Room where
  name : String
  roomType : String
  maxParticipants : Nat
  participants : List Participant
  isActive : Bool
  messageCount : Nat
  lastActivity : Nat
  createdByUserId : String
deriving Repr, DecidableEq

/-- The authenticated identity attached to a request or socket
(`AuthUser` in `models/user.ts`). -/
structure AuthUser where
  uid : String
  username : String
  email : String
deriving Repr, DecidableEq

/-- The room-document store: `Room.findOne({name})` returns the first
document whose `name` matches. -/
def findRoom (db : List Room) (roomName : String) : Option Room :=
  db.find? (fun r => r.name == roomName)

/-- `room.save()` at the document level: replace the stored document with
the in-memory one (insert when absent). -/
def saveRoom (db : List Room) (room : Room) : List Room :=
  if db.any (fun r => r.name == room.name) then
    db.map (fun r => if r.name == room.name then room else r)
  else
    db ++ [room]

/-- Mutate the first list entry satisfying `pred`: the semantics of
`findIndex` followed by an in-place update in `joinRoom`/`leaveRoom`, and
the first-match semantics of `findOneAndUpdate`. -/
def updateFirst {α : Type} (pred : α → Bool) (f : α → α) :
    List α → List α
  | [] => []
  | p :: ps => if pred p then f p :: ps else p :: updateFirst pred f ps

namespace RoomService

/-- The room built by `RoomService.createRoom` when `joinRoom` creates a
missing room dynamically: type `public`, default `maxParticipants` 100,
the creator as the sole (admin, active) participant. -/
def newRoomFor (roomName : String) (creator : AuthUser) (now : Nat) : Room :=
  { name := roomName
    roomType := "public"
    maxParticipants := 100
    participants := [{ userId := creator.uid, username := creator.username,
                       email := creator.email, joinedAt := now, role := "admin",
                       isActive := true, lastSeen := none }]
    isActive := true
    messageCount := 0
    lastActivity := now
    createdByUserId := creator.uid }

/-- The new member participant appended by `joinRoom` when the user was
not yet in the room. -/
def newMember (user : AuthUser) (now : Nat) : Participant :=
  { userId := user.uid, username := user.username, email := user.email,
    joinedAt := now, role := "member", isActive := true, lastSeen := some now }

/-- `room.maxParticipants || 100`: JavaScript truthiness sends 0 to the
default 100. -/
def effMax (room : Room) : Nat :=
  if room.maxParticipants = 0 then 100 else room.maxParticipants

/-- The body of `RoomService.joinRoom` on an already-existing room
document: inactive-room check, idempotent re-activation of an existing
participant, else capacity check and append of a new member; bumps
`lastActivity`. -/
def joinExisting (room : Room) (user : AuthUser) (now : Nat) :
    Except String Room :=
  if !room.isActive then
    .error "Room is not active"
  else if room.participants.any (fun p => p.userId == user.uid) then
    .ok { room with
          participants := updateFirst (fun p => p.userId == user.uid)
            (fun p => { p with isActive := true, lastSeen := some now })
            room.participants,
          lastActivity := now }
  else if (room.participants.filter (·.isActive)).length ≥ effMax room then
    .error "Room is full"
  else
    .ok { room with
          participants := room.participants ++ [newMember user now],
          lastActivity := now }

/-- `RoomService.joinRoom` run to completion with no interleaving: read
the room by name, create it when absent, otherwise apply `joinExisting`,
and save the result. -/
def joinRoom (db : List Room) (roomName : String) (user : AuthUser)
    (now : Nat) : Except String (List Room) :=
  match findRoom db roomName with
  | none => .ok (saveRoom db (newRoomFor roomName user now))
  | some room =>
    match joinExisting room user now with
    | .error e => .error e
    | .ok room' => .ok (saveRoom db room')

/-- `RoomService.leaveRoom`: absent room returns `none` and leaves the
store untouched; otherwise the first participant entry for `userId` (if
any) is flagged inactive with `lastSeen` stamped, `lastActivity` is
bumped, and the document is saved and returned. -/
def leaveRoom (db : List Room) (roomName : String) (userId : String)
    (now : Nat) : List Room × Option Room :=
  match findRoom db roomName with
  | none => (db, none)
  | some room =>
    let room' :=
      { room with
        participants := updateFirst (fun p => p.userId == userId)
          (fun p => { p with isActive := false, lastSeen := some now })
          room.participants,
        lastActivity := now }
    (saveRoom db room', some room')

/-- The capacity decision of `joinRoom` taken against one read snapshot of
the room, for a user who is not yet a participant: `some p` when the
check passes and `p` is the participant that the pending `save` will
append, `none` when the call fails first. -/
def joinDecision (room : Room) (user : AuthUser) (now : Nat) :
    Option Participant :=
  if !room.isActive then none
  else if room.participants.any (fun p => p.userId == user.uid) then none
  else if (room.participants.filter (·.isActive)).length ≥ effMax room then none
  else some (newMember user now)

/-- Two `joinRoom` calls interleaved at the awaited `save` boundary: both
`Room.findOne` reads return the same snapshot `room`, each capacity check
runs against that snapshot, and then both saves commit.  A mongoose
`save` whose only change is a `participants.push` issues an atomic
`$push`, so both appended participants land in the stored document. -/
def joinRaceResult (room : Room) (u1 u2 : AuthUser) (now : Nat) : Room :=
  match joinDecision room u1 now, joinDecision room u2 now with
  | some p1, some p2 => { room with participants := room.participants ++ [p1, p2] }
  | some p1, none => { room with participants := room.participants ++ [p1] }
  | none, some p2 => { room with participants := room.participants ++ [p2] }
  | none, none => room

end RoomService

/-- A reaction entry on a persisted message. -/
structure Reaction where
  userId : String
  username : String
  emoji : String
  timestamp : Nat
deriving Repr, DecidableEq

/-- A persisted message document (the `Message` mongoose model); `mid` is
the document's `_id`. -/
structure Message where
  mid : String
  content : String
  senderId : String
  senderUsername : String
  room : Option String
  messageType : String
  timestamp : Nat
  isEdited : Bool
  isDeleted : Bool
  reactions : List Reaction
  mentions : List String
  replyTo : Option String
  deletedAt : Option Nat
deriving Repr, DecidableEq

/-- The filter object accepted by `MessageService.getMessages`. -/
structure MessageFilter where
  room : Option String := none
  senderId : Option String := none
  messageType : Option String := none
  startDate : Option Nat := none
  endDate : Option Nat := none
  limit : Option Nat := none
  skip : Option Nat := none

/-- The mongo query built by `getMessages`: always `isDeleted: false`,
plus the optional room / sender / type / timestamp-range clauses. -/
def matchesQuery (f : MessageFilter) (m : Message) : Bool :=
  !m.isDeleted
    && (match f.room with | none => true | some r => m.room == some r)
    && (match f.senderId with | none => true | some s => m.senderId == s)
    && (match f.messageType with | none => true | some t => m.messageType == t)
    && (match f.startDate with | none => true | some d => d ≤ m.timestamp)
    && (match f.endDate with | none => true | some d => m.timestamp ≤ d)

namespace MessageService

/-- `filter.limit || 50` under JavaScript truthiness (0 is falsy). -/
def effLimit (f : MessageFilter) : Nat :=
  match f.limit with
  | none => 50
  | some n => if n = 0 then 50 else n

/-- `filter.skip || 0`. -/
def effSkip (f : MessageFilter) : Nat := (f.skip).getD 0

/-- The result shape of `getMessages`. -/
structure MessagesResult where
  messages : List Message
  total : Nat
  hasMore : Bool
deriving Repr, DecidableEq

/-- `MessageService.getMessages`: filter by the query, sort by timestamp
descending, apply skip then limit (mongo applies them in that order
regardless of call order), and reverse into chronological order. -/
def getMessages (db : List Message) (f : MessageFilter) : MessagesResult :=
  let q := db.filter (matchesQuery f)
  let sorted := q.insertionSort (fun a b => b.timestamp ≤ a.timestamp)
  { messages := (((sorted.drop (effSkip f)).take (effLimit f))).reverse
    total := q.length
    hasMore := q.length > effSkip f + effLimit f }

/-- `MessageService.deleteMessage`: `findOneAndUpdate` on
`{_id, sender.id, isDeleted: false}`; on a match the document is
soft-deleted with its content replaced by the placeholder, and the call
reports success; otherwise the store is untouched and it reports
failure. -/
def deleteMessage (db : List Message) (messageId userId : String)
    (now : Nat) : List Message × Bool :=
  if db.any (fun m => m.mid == messageId && m.senderId == userId && !m.isDeleted) then
    (updateFirst (fun m => m.mid == messageId && m.senderId == userId && !m.isDeleted)
      (fun m => { m with isDeleted := true, deletedAt := some now,
                         content := "[Message deleted]" }) db, true)
  else
    (db, false)

/-- The reaction-array transform of `MessageService.addReaction`: the
`$pull` removes every reaction of `userId`, then the `$push` appends the
new one. -/
def addReactionList (rs : List Reaction) (userId username emoji : String)
    (now : Nat) : List Reaction :=
  rs.filter (fun r => !(r.userId == userId)) ++
    [{ userId, username, emoji, timestamp := now }]

/-- `MessageService.addReaction`: both updates address the message by id;
an absent id returns `none` and leaves the store unchanged. -/
def addReaction (db : List Message) (messageId userId username emoji : String)
    (now : Nat) : List Message × Option Message :=
  match db.find? (fun m => m.mid == messageId) with
  | none => (db, none)
  | some m =>
    let m' := { m with reactions := addReactionList m.reactions userId username emoji now }
    (updateFirst (fun x => x.mid == messageId) (fun x =>
      { x with reactions := addReactionList x.reactions userId username emoji now }) db,
     some m')

/-- `\w` of the mention regex: ASCII letters, digits and underscore. -/
def isWordChar (c : Char) : Bool := c.isAlphanum || c == '_'

/-- The scan performed by the `/@(\w+)/g` exec loop of the HTTP
message-creation route: each `@` followed by one or more word characters
yields the maximal word after it, and scanning resumes past the match.
The second argument is `some acc` while inside a candidate mention word
that began at an `@`, holding the word characters read so far. -/
def extractMentionsAux : List Char → Option (List Char) → List String
  | [], none => []
  | [], some acc => if acc.isEmpty then [] else [String.mk acc]
  | c :: rest, none =>
    if c == '@' then extractMentionsAux rest (some [])
    else extractMentionsAux rest none
  | c :: rest, some acc =>
    if isWordChar c then extractMentionsAux rest (some (acc ++ [c]))
    else
      let tail :=
        if c == '@' then extractMentionsAux rest (some [])
        else extractMentionsAux rest none
      if acc.isEmpty then tail else String.mk acc :: tail

/-- Mentions extracted from `@word` tokens of a content string. -/
def extractMentions (content : String) : List String :=
  extractMentionsAux content.toList none

end MessageService

/-- A value of the `connectedUsers` map in `socketHandler.ts`. -/
structure ConnUser where
  id : String
  username : String
  room : Option String
deriving Repr, DecidableEq

/-- The session registry: `connectedUsers`, a socket-id-keyed map in
insertion order. -/
abbrev Registry := List (String × ConnUser)

/-- An outbound push to a target set of live connections. -/
inductive Emit where
  | toSocket (socketId : String) (event : String)
  | toRoom (room : String) (event : String)
  | toAll (event : String)
deriving Repr, DecidableEq

/-- `SocketRoomManager.getUsersInRoom`: the connected users whose
session `room` field equals the queried room. -/
def getUsersInRoom (connected : Registry) (room : String) : List ConnUser :=
  (connected.map Prod.snd).filter (fun u => u.room == some room)

/-- The membership index: `userRoomMemberships`, a userId-keyed map of
room-name sets, both in insertion order. -/
abbrev MembershipIndex := List (String × List String)

namespace SocketService

/-- `SocketService.sendToUser`: scan `connectedUsers` and emit to the
first socket whose user id matches, then stop (the loop breaks after one
match); emit nothing when no session matches. -/
def sendToUser (connected : Registry) (userId event : String) : List Emit :=
  match connected.find? (fun su => su.2.id == userId) with
  | some su => [Emit.toSocket su.1 event]
  | none => []

/-- The result shape of `SocketService.getRoomStats`. -/
structure RoomStats where
  userCount : Nat
  users : List (String × String)
deriving Repr, DecidableEq

/-- `SocketService.getRoomStats`: built from
`SocketRoomManager.getUsersInRoom`, i.e. from the session registry's
`room` field. -/
def getRoomStats (connected : Registry) (room : String) : RoomStats :=
  let roomUsers := getUsersInRoom connected room
  { userCount := roomUsers.length
    users := roomUsers.map (fun u => (u.id, u.username)) }

/-- One `roomStats.get(room)!.add(userId)` step of `getAllActiveRooms`:
insert the room key when absent (at the end, as `Map.set` does), then
add the user id to its set (`Set.add`: a no-op when already present). -/
def addToRoomStats : List (String × List String) → String → String →
    List (String × List String)
  | [], room, uid => [(room, [uid])]
  | e :: es, room, uid =>
    if e.1 == room then
      (e.1, if e.2.contains uid then e.2 else e.2 ++ [uid]) :: es
    else
      e :: addToRoomStats es room uid

/-- The `roomStats` map of `getAllActiveRooms`: iterate the membership
index and group user ids by room. -/
def collectRoomStats (memberships : MembershipIndex) :
    List (String × List String) :=
  memberships.foldl
    (fun acc m => m.2.foldl (fun acc2 r => addToRoomStats acc2 r m.1) acc) []

/-- The username lookup inside `getAllActiveRooms`: first session of the
user in the registry, else the literal `Unknown`. -/
def usernameOf (connected : Registry) (uid : String) : String :=
  match connected.find? (fun su => su.2.id == uid) with
  | some su => su.2.username
  | none => "Unknown"

/-- One entry of the `getAllActiveRooms` result. -/
structure ActiveRoom where
  room : String
  userCount : Nat
  users : List String
deriving Repr, DecidableEq

/-- `SocketService.getAllActiveRooms`: invert the membership index into
per-room user-id sets, then map ids to usernames via the registry. -/
def getAllActiveRooms (connected : Registry) (memberships : MembershipIndex) :
    List ActiveRoom :=
  (collectRoomStats memberships).map (fun e =>
    { room := e.1, userCount := e.2.length
      users := e.2.map (usernameOf connected) })

end SocketService

namespace Handlers

/-- `MessageService.createMessage` with the outcome of the awaited
`message.save()` supplied as `persistOk`: a failed save throws before
anything else happens; on success, a message carrying a room also fans
out a `newMessage` notification to that room.  The persisted mentions
are the supplied list or empty (`data.mentions || []`); no extraction
happens here. -/
def createMessage (persistOk : Bool) (mid content : String)
    (sender : AuthUser) (room : Option String) (replyTo : Option String)
    (mentions : Option (List String)) (now : Nat) :
    Except String (Message × List Emit) :=
  if !persistOk then .error "Failed to create message"
  else
    let saved : Message :=
      { mid, content, senderId := sender.uid,
        senderUsername := sender.username, room, messageType := "text",
        timestamp := now, isEdited := false, isDeleted := false,
        reactions := [], mentions := mentions.getD [], replyTo,
        deletedAt := none }
    match room with
    | some r => .ok (saved, [Emit.toRoom r "newMessage"])
    | none => .ok (saved, [])

/-- The `send_message` socket handler: await `createMessage`; on a throw,
catch and emit a single `error` event on the sender's own socket; on
success, fan `receive_message` out to the room, or to every connection
when no room was given. -/
def handleSendMessage (persistOk : Bool) (senderSocket : String)
    (sender : AuthUser) (mid msgText : String) (room : Option String)
    (replyTo : Option String) (mentions : Option (List String)) (now : Nat) :
    List Emit :=
  match createMessage persistOk mid msgText sender room replyTo mentions now with
  | .error _ => [Emit.toSocket senderSocket "error"]
  | .ok res =>
    res.2 ++
      (match room with
       | some r => [Emit.toRoom r "receive_message"]
       | none => [Emit.toAll "receive_message"])

/-- The `delete_message` socket handler: on a successful
`MessageService.deleteMessage` it emits `message_deleted` on the calling
socket only (the handler does not know the message's room); on failure
it emits nothing. -/
def handleDeleteMessage (db : List Message) (callerSocket callerId
    messageId : String) (now : Nat) : List Message × List Emit :=
  ((MessageService.deleteMessage db messageId callerId now).1,
   if (MessageService.deleteMessage db messageId callerId now).2 then
     [Emit.toSocket callerSocket "message_deleted"]
   else [])

/-- `finalMentions` of the HTTP message-creation route in
`routes/auth.ts`: an explicitly supplied array (even empty) is kept
as-is (a JS array is always truthy); otherwise `@word` tokens are
extracted when the content contains an `@`; otherwise it stays
undefined. -/
def finalMentions (mentions : Option (List String)) (content : String) :
    Option (List String) :=
  match mentions with
  | some ms => some ms
  | none =>
    if content.toList.contains '@' then some (MessageService.extractMentions content)
    else none

/-- The mentions persisted and the `mention` notifications pushed by the
HTTP message-creation route: the message is created with
`finalMentions` (persisted as `[]` when undefined), then `sendToUser` is
invoked once per final mention, with no room-membership check. -/
def httpSendMessage (connected : Registry) (content : String)
    (mentions : Option (List String)) : List String × List Emit :=
  let fm := finalMentions mentions content
  ((fm.getD []),
   ((fm.getD []).map (fun m => SocketService.sendToUser connected m "mention")).flatten)

end Handlers

namespace Demo

/-- A concrete user for concrete evaluations. -/
def userA : AuthUser := { uid := "uA", username := "alice", email := "a@x.io" }

/-- A second concrete user. -/
def userB : AuthUser := { uid := "uB", username := "bob", email := "b@x.io" }

/-- A third concrete user. -/
def userC : AuthUser := { uid := "uC", username := "carol", email := "c@x.io" }

/-- An active room with capacity 1 and no participants yet. -/
def vipRoom : Room :=
  { name := "vip", roomType := "public", maxParticipants := 1,
    participants := [], isActive := true, messageCount := 0,
    lastActivity := 0, createdByUserId := "uA" }

/-- An active room with no participant entry at all. -/
def roomR : Room :=
  { name := "r", roomType := "public", maxParticipants := 100,
    participants := [], isActive := true, messageCount := 0,
    lastActivity := 0, createdByUserId := "uA" }

/-- A one-room store. -/
def dbR : List Room := [roomR]

/-- A registry where one user holds two live connections. -/
def twoConnSameUser : Registry :=
  [("s1", { id := "u1", username := "alice", room := none }),
   ("s2", { id := "u1", username := "alice", room := none })]

/-- A registry with one session whose `room` field is unset, paired with
a membership index that subscribes that user to `general`. -/
def idxConn : Registry := [("s1", { id := "u1", username := "alice", room := none })]

/-- The membership index for `idxConn`. -/
def idxMems : MembershipIndex := [("u1", ["general"])]

/-- A live message by `userA` in room `r`. -/
def msgM : Message :=
  { mid := "m1", content := "hi", senderId := "uA", senderUsername := "alice",
    room := some "r", messageType := "text", timestamp := 0,
    isEdited := false, isDeleted := false, reactions := [], mentions := [],
    replyTo := none, deletedAt := none }

/-- A one-message store. -/
def msgDb : List Message := [msgM]

end Demo

/-- The event name an `Emit` carries. -/
def Emit.event : Emit → String
  | .toSocket _ e => e
  | .toRoom _ e => e
  | .toAll e => e

theorem updateFirst_of_forall_not {α : Type} (pred : α → Bool) (f : α → α)
    (l : List α) (h : ∀ a ∈ l, pred a = false) : updateFirst pred f l = l := by
  induction l with
  | nil => rfl
  | cons a l ih =>
    have ha : pred a = false := h a (List.mem_cons_self a l)
    have ih' := ih (fun b hb => h b (List.mem_cons_of_mem a hb))
    simp [updateFirst, ha, ih']

theorem updateFirst_decomp {α : Type} (pred : α → Bool) (f : α → α)
    (l : List α) (h : l.any pred = true) :
    ∃ l1 a l2, l = l1 ++ a :: l2 ∧ pred a = true ∧
      (∀ b ∈ l1, pred b = false) ∧
      updateFirst pred f l = l1 ++ f a :: l2 := by
  induction l with
  | nil => simp at h
  | cons a l ih =>
    by_cases ha : pred a = true
    · exact ⟨[], a, l, rfl, ha, by simp, by simp [updateFirst, ha]⟩
    · have ha' : pred a = false := by simpa using ha
      have h' : l.any pred = true := by
        rcases (List.any_eq_true).mp h with ⟨x, hx, hpx⟩
        rcases List.mem_cons.mp hx with rfl | hx
        · exact absurd hpx ha
        · exact (List.any_eq_true).mpr ⟨x, hx, hpx⟩
      obtain ⟨l1, b, l2, hl, hb, hl1, hu⟩ := ih h'
      refine ⟨a :: l1, b, l2, by simp [hl], hb, ?_, by simp [updateFirst, ha', hu]⟩
      intro x hx
      rcases List.mem_cons.mp hx with rfl | hx
      · exact ha'
      · exact hl1 x hx

theorem findRoom_name (db : List Room) (n : String) (r : Room)
    (h : findRoom db n = some r) : r.name = n := by
  unfold findRoom at h
  simpa using List.find?_some h

theorem find?_append_of_none {α : Type} (p : α → Bool) (l1 l2 : List α)
    (h : l1.find? p = none) : (l1 ++ l2).find? p = l2.find? p := by
  induction l1 with
  | nil => simp
  | cons a l ih =>
    cases hpa : p a with
    | true => simp [List.find?_cons_of_pos _ hpa] at h
    | false =>
      rw [List.find?_cons_of_neg _ (by simp [hpa])] at h
      rw [List.cons_append, List.find?_cons_of_neg _ (by simp [hpa])]
      exact ih h

theorem find?_map_replace (room : Room) (db : List Room) :
    List.find? (fun r => r.name == room.name)
      (db.map (fun r => if r.name == room.name then room else r))
      = if db.any (fun r => r.name == room.name) then some room else none := by
  induction db with
  | nil => simp
  | cons r db ih =>
    by_cases hr : (r.name == room.name) = true
    · simp only [List.map_cons, List.any_cons, hr, Bool.true_or, if_true, if_pos hr]
      rw [List.find?_cons_of_pos _ (by simp)]
    · have hr' : (r.name == room.name) = false := by simpa using hr
      simp only [List.map_cons, List.any_cons, hr', Bool.false_or, if_neg hr]
      rw [List.find?_cons_of_neg _ (by simp [hr'])]
      exact ih

theorem findRoom_saveRoom_self (db : List Room) (room : Room) :
    findRoom (saveRoom db room) room.name = some room := by
  unfold saveRoom findRoom
  by_cases h : db.any (fun r => r.name == room.name) = true
  · rw [if_pos h, find?_map_replace, if_pos h]
  · have h' : db.any (fun r => r.name == room.name) = false := by simpa using h
    rw [if_neg (by simp [h'])]
    have hnone : db.find? (fun r => r.name == room.name) = none := by
      rw [List.find?_eq_none]
      intro x hx
      have := List.any_eq_false.mp h' x hx
      simpa using this
    rw [find?_append_of_none _ _ _ hnone]
    rw [List.find?_cons_of_pos _ (by simp)]

/-- C2: a `send_message` whose persistence fails emits a single `error`
event on the sender's connection and fans no `receive_message` out
anywhere; any `receive_message` fan-out (to the room, or to everyone
when roomless) implies the message was persisted, and persistence does
produce exactly that fan-out. -/
theorem send_message_fanout_only_after_persist (persistOk : Bool)
    (sock : String) (sender : AuthUser) (mid text : String)
    (room replyTo : Option String) (mentions : Option (List String))
    (now : Nat) :
    (persistOk = false →
       Handlers.handleSendMessage persistOk sock sender mid text room
           replyTo mentions now
         = [Emit.toSocket sock "error"]) ∧
    (∀ e ∈ Handlers.handleSendMessage persistOk sock sender mid text room
           replyTo mentions now,
       Emit.event e = "receive_message" → persistOk = true) ∧
    (persistOk = true →
       (match room with
        | some r => Emit.toRoom r "receive_message"
        | none => Emit.toAll "receive_message")
         ∈ Handlers.handleSendMessage persistOk sock sender mid text room
             replyTo mentions now) := by
  cases persistOk <;> cases room <;>
    simp [Handlers.handleSendMessage, Handlers.createMessage, Emit.event]

/-- C2 witness: a concrete failed persistence produces only the local
error event. -/
theorem send_message_fanout_witness :
    Handlers.handleSendMessage false "s1" Demo.userA "m1" "hi" (some "r")
        none none 4
      = [Emit.toSocket "s1" "error"] :=
  (send_message_fanout_only_after_persist false "s1" Demo.userA "m1" "hi"
    (some "r") none none 4).1 rfl

/-- C1: the capacity invariant fails under the interleaving the source
permits.  Room `vip` has `maxParticipants = 1` and no active
participant; users B and C both run `joinRoom`, both `findOne` reads
return the same snapshot, both capacity checks pass (0 < 1), and both
saves append — leaving 2 active participants in a room of capacity 1,
where the claim requires the second join to fail with a room-full
error. -/
theorem joinRoom_capacity_race_exceeds_max :
    (RoomService.joinDecision Demo.vipRoom Demo.userB 5).isSome = true ∧
    (RoomService.joinDecision Demo.vipRoom Demo.userC 5).isSome = true ∧
    Demo.vipRoom.maxParticipants = 1 ∧
    ((RoomService.joinRaceResult Demo.vipRoom Demo.userB Demo.userC 5).participants.filter
        (·.isActive)).length = 2 := by
  decide

/-- C3 (counterexample): with two live connections of the same user,
`sendToUser` pushes to the first matching connection only and ignores
the second, refuting the claim that every live connection of the user
receives the event. -/
theorem sendToUser_misses_second_connection :
    (("s2", ({ id := "u1", username := "alice", room := none } : ConnUser))
        ∈ Demo.twoConnSameUser) ∧
    SocketService.sendToUser Demo.twoConnSameUser "u1" "ping"
        = [Emit.toSocket "s1" "ping"] ∧
    Emit.toSocket "s2" "ping" ∉
        SocketService.sendToUser Demo.twoConnSameUser "u1" "ping" := by
  decide

/-- C6 (counterexample): leaving a room one is not a participant of is
not a no-op returning "not found": the call returns the room document
and bumps its persisted `lastActivity`. -/
theorem leaveRoom_absent_participant_not_noop :
    (∀ p ∈ Demo.roomR.participants, p.userId ≠ "uZ") ∧
    (RoomService.leaveRoom Demo.dbR "r" "uZ" 1).2 ≠ none ∧
    (RoomService.leaveRoom Demo.dbR "r" "uZ" 1).1 ≠ Demo.dbR := by
  decide

/-- C7 (counterexample): a successful `delete_message` on a message that
lives in room `r` emits `message_deleted` on the calling socket only;
no event reaches the room. -/
theorem delete_message_emits_to_caller_only :
    Demo.msgM.room = some "r" ∧
    (Handlers.handleDeleteMessage Demo.msgDb "s1" "uA" "m1" 7).2
        = [Emit.toSocket "s1" "message_deleted"] ∧
    Emit.toRoom "r" "message_deleted" ∉
        (Handlers.handleDeleteMessage Demo.msgDb "s1" "uA" "m1" 7).2 := by
  decide

/-- C9 (counterexample): with one connection whose session `room` field
is unset but whose membership-index entry contains `general`,
`getRoomStats` reports 0 users for `general` while the membership-index
inversion — the grouping `getAllActiveRooms` computes — reports 1. -/
theorem getRoomStats_disagrees_with_index :
    (SocketService.getRoomStats Demo.idxConn "general").userCount = 0 ∧
    SocketService.getAllActiveRooms Demo.idxConn Demo.idxMems
        = [{ room := "general", userCount := 1, users := ["alice"] }] := by
  decide

/-- C4 (counterexample): a socket `send_message` carrying
`hello @bob` and no explicit mentions list persists an empty mentions
array — not `["bob"]` as the claim requires — and emits no `mention`
notification (the only emits are the room fan-outs). -/
theorem send_message_does_not_extract_mentions :
    MessageService.extractMentions "hello @bob" = ["bob"] ∧
    (Handlers.createMessage true "m1" "hello @bob" Demo.userA (some "r")
        none none 3).toOption.map (fun p => p.1.mentions) = some [] ∧
    Handlers.handleSendMessage true "s1" Demo.userA "m1" "hello @bob"
        (some "r") none none 3
      = [Emit.toRoom "r" "newMessage", Emit.toRoom "r" "receive_message"] := by
  decide

/-- C3 (amended): `sendToUser` pushes the event to at most one
connection — the first registry entry whose session belongs to the
user — and is a no-op, not an error, when the user has no live
connection. -/
theorem sendToUser_first_match_only (connected : Registry)
    (userId event : String) :
    (∀ e ∈ SocketService.sendToUser connected userId event,
        ∃ su ∈ connected, su.2.id = userId ∧ e = Emit.toSocket su.1 event) ∧
    (SocketService.sendToUser connected userId event).length ≤ 1 ∧
    ((∀ su ∈ connected, su.2.id ≠ userId) →
        SocketService.sendToUser connected userId event = []) ∧
    (∀ su ∈ connected, su.2.id = userId →
        (SocketService.sendToUser connected userId event).length = 1) := by
  unfold SocketService.sendToUser
  cases hf : connected.find? (fun su => su.2.id == userId) with
  | none =>
    refine ⟨by simp, by simp, fun _ => rfl, ?_⟩
    intro su hsu hid
    have := List.find?_eq_none.mp hf su hsu
    simp [hid] at this
  | some su0 =>
    have hmem := List.mem_of_find?_eq_some hf
    have hid : su0.2.id = userId := by simpa using List.find?_some hf
    refine ⟨?_, by simp, ?_, fun _ _ _ => rfl⟩
    · intro e he
      simp at he
      exact ⟨su0, hmem, hid, by simp [he]⟩
    · intro hall
      exact absurd hid (hall su0 hmem)

/-- C3 witness: on the two-connection registry exactly one connection
receives the push. -/
theorem sendToUser_first_match_witness :
    (SocketService.sendToUser Demo.twoConnSameUser "u1" "ping").length = 1 :=
  (sendToUser_first_match_only Demo.twoConnSameUser "u1" "ping").2.2.2
    ("s1", { id := "u1", username := "alice", room := none }) (by decide) rfl

/-- C6 (amended): `leaveRoom` on an absent room is a no-op returning
`none` with the store untouched; on a present room it always bumps
`lastActivity`, saves, and returns the room: the first participant entry
of the user (when one exists) is flipped inactive with `lastSeen`
stamped, and a user with no participant entry leaves the participant
list unchanged but still gets the saved room back, not a "not found"
result. -/
theorem leaveRoom_flips_first_or_saves (db : List Room)
    (roomName userId : String) (now : Nat) :
    (findRoom db roomName = none →
        RoomService.leaveRoom db roomName userId now = (db, none)) ∧
    (∀ room, findRoom db roomName = some room →
        ∃ room',
          RoomService.leaveRoom db roomName userId now
              = (saveRoom db room', some room') ∧
          room'.lastActivity = now ∧ room'.name = room.name ∧
          ((∀ p ∈ room.participants, (p.userId == userId) = false) →
              room'.participants = room.participants) ∧
          (room.participants.any (fun p => p.userId == userId) = true →
              ∃ l1 p l2, room.participants = l1 ++ p :: l2 ∧
                (p.userId == userId) = true ∧
                room'.participants
                  = l1 ++ { p with isActive := false,
                                   lastSeen := some now } :: l2)) := by
  constructor
  · intro h
    unfold RoomService.leaveRoom
    rw [h]
  · intro room h
    unfold RoomService.leaveRoom
    rw [h]
    refine ⟨_, rfl, rfl, rfl, ?_, ?_⟩
    · intro hnone
      exact updateFirst_of_forall_not _ _ _ hnone
    · intro hany
      obtain ⟨l1, p, l2, hl, hp, _, hu⟩ := updateFirst_decomp
        (fun (p : Participant) => p.userId == userId)
        (fun (p : Participant) => { p with isActive := false, lastSeen := some now }) _ hany
      exact ⟨l1, p, l2, hl, hp, hu⟩

/-- C6 witness: leaving a room that does not exist returns the store
unchanged and `none`. -/
theorem leaveRoom_witness :
    RoomService.leaveRoom ([] : List Room) "nope" "uZ" 1 = ([], none) :=
  (leaveRoom_flips_first_or_saves [] "nope" "uZ" 1).1 rfl

/-- C7 (amended): `delete_message` succeeds only when the caller is the
message's sender and the message is not yet deleted; on success the
stored document is soft-deleted (`isDeleted = true`, content replaced by
the `[Message deleted]` placeholder) and a single `message_deleted`
event is emitted on the calling connection only — there is no room or
global re-emission; with no matching-authorized message the store is
untouched and nothing is emitted. -/
theorem delete_message_soft_delete_caller_emit (db : List Message)
    (sock callerId messageId : String) (now : Nat) :
    ((MessageService.deleteMessage db messageId callerId now).2 = true →
        (∃ m ∈ db, m.mid = messageId ∧ m.senderId = callerId ∧
            m.isDeleted = false) ∧
        (∃ m' ∈ (Handlers.handleDeleteMessage db sock callerId messageId now).1,
            m'.mid = messageId ∧ m'.isDeleted = true ∧
            m'.content = "[Message deleted]") ∧
        (Handlers.handleDeleteMessage db sock callerId messageId now).2
            = [Emit.toSocket sock "message_deleted"]) ∧
    ((∀ m ∈ db, ¬(m.mid = messageId ∧ m.senderId = callerId ∧
            m.isDeleted = false)) →
        Handlers.handleDeleteMessage db sock callerId messageId now
            = (db, [])) := by
  by_cases hany : db.any (fun m =>
      m.mid == messageId && m.senderId == callerId && !m.isDeleted) = true
  · obtain ⟨l1, p, l2, hl, hp, hl1, hu⟩ := updateFirst_decomp
      (fun (m : Message) => m.mid == messageId && m.senderId == callerId && !m.isDeleted)
      (fun (m : Message) => { m with isDeleted := true, deletedAt := some now,
                                     content := "[Message deleted]" }) db hany
    have hp' : p.mid = messageId ∧ p.senderId = callerId ∧
        p.isDeleted = false := by
      simp only [Bool.and_eq_true, beq_iff_eq, Bool.not_eq_true'] at hp
      exact ⟨hp.1.1, hp.1.2, hp.2⟩
    have hpm : p ∈ db := by
      rw [hl]
      exact List.mem_append_right _ (List.mem_cons_self _ _)
    have hdel : MessageService.deleteMessage db messageId callerId now
        = (l1 ++ ({ p with isDeleted := true, deletedAt := some now,
                           content := "[Message deleted]" } : Message) :: l2,
           true) := by
      unfold MessageService.deleteMessage
      rw [if_pos hany, hu]
    constructor
    · intro _
      refine ⟨⟨p, hpm, hp'⟩, ?_, ?_⟩
      · refine ⟨{ p with isDeleted := true, deletedAt := some now,
                         content := "[Message deleted]" }, ?_, hp'.1, rfl, rfl⟩
        unfold Handlers.handleDeleteMessage
        rw [hdel]
        exact List.mem_append_right _ (List.mem_cons_self _ _)
      · unfold Handlers.handleDeleteMessage
        rw [hdel]
        simp
    · intro hall
      exact absurd hp' (hall p hpm)
  · have hdel : MessageService.deleteMessage db messageId callerId now
        = (db, false) := by
      unfold MessageService.deleteMessage
      rw [if_neg (by simpa using hany)]
    constructor
    · intro hsucc
      rw [hdel] at hsucc
      simp at hsucc
    · intro _
      unfold Handlers.handleDeleteMessage
      rw [hdel]
      simp

/-- C7 witness: the concrete successful deletion emits only on the
calling socket. -/
theorem delete_message_soft_delete_witness :
    (Handlers.handleDeleteMessage Demo.msgDb "s1" "uA" "m1" 7).2
        = [Emit.toSocket "s1" "message_deleted"] :=
  ((delete_message_soft_delete_caller_emit Demo.msgDb "s1" "uA" "m1" 7).1
    (by decide)).2.2

theorem mem_getMessages_not_deleted (db : List Message) (f : MessageFilter)
    (m : Message) (hm : m ∈ (MessageService.getMessages db f).messages) :
    m.isDeleted = false := by
  unfold MessageService.getMessages at hm
  simp only [List.mem_reverse] at hm
  have h1 := List.mem_of_mem_take hm
  have h2 := List.mem_of_mem_drop h1
  have h3 : m ∈ db.filter (matchesQuery f) :=
    (List.perm_insertionSort (fun a b => b.timestamp ≤ a.timestamp) _).subset h2
  have h4 := (List.mem_filter.mp h3).2
  unfold matchesQuery at h4
  simp only [Bool.and_eq_true, Bool.not_eq_true'] at h4
  exact h4.1.1.1.1.1

/-- C10: every message returned by `getMessages` — and hence every entry
of the room history delivered to a joining connection, which
`getRoomMessages` obtains from `getMessages` — has `isDeleted = false`;
a successfully deleted message is stored soft-deleted with the
`[Message deleted]` placeholder as content and appears in no
`getMessages` result over the updated store. -/
theorem getMessages_excludes_deleted (db : List Message) (f : MessageFilter) :
    (∀ m ∈ (MessageService.getMessages db f).messages, m.isDeleted = false) ∧
    (∀ mid uid now,
        (MessageService.deleteMessage db mid uid now).2 = true →
        ∃ m' ∈ (MessageService.deleteMessage db mid uid now).1,
          m'.mid = mid ∧ m'.isDeleted = true ∧
          m'.content = "[Message deleted]" ∧
          ∀ g, m' ∉ (MessageService.getMessages
              (MessageService.deleteMessage db mid uid now).1 g).messages) := by
  refine ⟨fun m hm => mem_getMessages_not_deleted db f m hm, ?_⟩
  intro mid uid now hsucc
  by_cases hany : db.any (fun m =>
      m.mid == mid && m.senderId == uid && !m.isDeleted) = true
  · obtain ⟨l1, p, l2, hl, hp, hl1, hu⟩ := updateFirst_decomp
      (fun (m : Message) => m.mid == mid && m.senderId == uid && !m.isDeleted)
      (fun (m : Message) => { m with isDeleted := true, deletedAt := some now,
                                     content := "[Message deleted]" }) db hany
    have hp' : p.mid = mid := by
      simp only [Bool.and_eq_true, beq_iff_eq, Bool.not_eq_true'] at hp
      exact hp.1.1
    have hdel : MessageService.deleteMessage db mid uid now
        = (l1 ++ ({ p with isDeleted := true, deletedAt := some now,
                           content := "[Message deleted]" } : Message) :: l2,
           true) := by
      unfold MessageService.deleteMessage
      rw [if_pos hany, hu]
    rw [hdel]
    refine ⟨{ p with isDeleted := true, deletedAt := some now,
                     content := "[Message deleted]" }, ?_, hp', rfl, rfl, ?_⟩
    · exact List.mem_append_right _ (List.mem_cons_self _ _)
    · intro g hmem
      have := mem_getMessages_not_deleted _ g _ hmem
      simp at this
  · have hdel : MessageService.deleteMessage db mid uid now = (db, false) := by
      unfold MessageService.deleteMessage
      rw [if_neg (by simpa using hany)]
    rw [hdel] at hsucc
    simp at hsucc

/-- C10 witness: the concrete live message passes the filter and indeed
carries `isDeleted = false`. -/
theorem getMessages_excludes_deleted_witness :
    Demo.msgM.isDeleted = false :=
  (getMessages_excludes_deleted Demo.msgDb {}).1 Demo.msgM (by decide)


/-- The room document produced by the re-activation branch of
`joinRoom`: the user's first participant entry flipped active with
`lastSeen` refreshed, `lastActivity` bumped. -/
def flipRoom (room : Room) (uid : String) (now : Nat) : Room :=
  { room with
    participants := updateFirst (fun p => p.userId == uid)
      (fun p => { p with isActive := true, lastSeen := some now })
      room.participants,
    lastActivity := now }

theorem flip_unique_active (ps : List Participant) (uid : String) (now : Nat)
    (hcount : ps.countP (fun p => p.userId == uid) ≤ 1)
    (hany : ps.any (fun p => p.userId == uid) = true) :
    ((updateFirst (fun p => p.userId == uid)
        (fun p => { p with isActive := true, lastSeen := some now }) ps).countP
        (fun p => p.userId == uid) = 1) ∧
    (∀ p ∈ updateFirst (fun p => p.userId == uid)
        (fun p => { p with isActive := true, lastSeen := some now }) ps,
        (p.userId == uid) = true → p.isActive = true) := by
  obtain ⟨l1, b, l2, hl, hb, hl1, hu⟩ := updateFirst_decomp
    (fun (p : Participant) => p.userId == uid)
    (fun (p : Participant) => { p with isActive := true, lastSeen := some now })
    ps hany
  have hc1 : l1.countP (fun p => p.userId == uid) = 0 :=
    List.countP_eq_zero.mpr (by intro a ha; simp [hl1 a ha])
  have htot := hcount
  rw [hl, List.countP_append, List.countP_cons, hc1] at htot
  simp only [hb, if_true] at htot
  have hc2 : l2.countP (fun p => p.userId == uid) = 0 := by omega
  rw [hu]
  constructor
  · rw [List.countP_append, List.countP_cons, hc1, hc2]
    simp [hb]
  · intro p hp hpu
    rcases List.mem_append.mp hp with h1 | h2
    · exact absurd hpu (by simp [hl1 p h1])
    · rcases List.mem_cons.mp h2 with rfl | h3
      · rfl
      · exact absurd hpu (by simpa using List.countP_eq_zero.mp hc2 p h3)

theorem joinRoom_second_join (db2 : List Room) (roomName : String)
    (u : AuthUser) (n2 : Nat) (room1 : Room)
    (hname : room1.name = roomName)
    (hact : room1.isActive = true)
    (hcount : room1.participants.countP (fun p => p.userId == u.uid) = 1)
    (hfind : findRoom db2 roomName = some room1) :
    ∃ db'', RoomService.joinRoom db2 roomName u n2 = .ok db'' ∧
      ∃ room, findRoom db'' roomName = some room ∧
        room.participants.countP (fun p => p.userId == u.uid) = 1 ∧
        ∀ p ∈ room.participants, (p.userId == u.uid) = true →
          p.isActive = true := by
  have hany1 : room1.participants.any (fun p => p.userId == u.uid) = true := by
    rw [List.any_eq_true]
    have hpos : 0 < room1.participants.countP (fun p => p.userId == u.uid) := by
      rw [hcount]; omega
    exact List.countP_pos_iff.mp hpos
  have hje2 : RoomService.joinExisting room1 u n2
      = .ok (flipRoom room1 u.uid n2) := by
    unfold RoomService.joinExisting flipRoom
    rw [if_neg (by simp [hact]), if_pos hany1]
  have hjr : RoomService.joinRoom db2 roomName u n2
      = .ok (saveRoom db2 (flipRoom room1 u.uid n2)) := by
    simp [RoomService.joinRoom, hfind, hje2]
  obtain ⟨hc, hall⟩ := flip_unique_active room1.participants u.uid n2
    (le_of_eq hcount) hany1
  refine ⟨_, hjr, flipRoom room1 u.uid n2, ?_, hc, hall⟩
  have h2 : (flipRoom room1 u.uid n2).name = roomName := hname
  rw [← h2]
  exact findRoom_saveRoom_self db2 _

/-- C5: `joinRoom` is idempotent per (room, user): starting from a store
whose stored room (if any) has at most one participant entry for the
user (the schema invariant of `participants`), a successful
`joinRoom(R,U)` followed by a second `joinRoom(R,U)` succeeds and leaves
exactly one participant entry for U in R, with `isActive = true`. -/
theorem joinRoom_idempotent (db : List Room) (roomName : String)
    (u : AuthUser) (n1 n2 : Nat)
    (hpre : ∀ room, findRoom db roomName = some room →
        room.participants.countP (fun p => p.userId == u.uid) ≤ 1)
    (db' : List Room)
    (h1 : RoomService.joinRoom db roomName u n1 = .ok db') :
    ∃ db'', RoomService.joinRoom db' roomName u n2 = .ok db'' ∧
      ∃ room, findRoom db'' roomName = some room ∧
        room.participants.countP (fun p => p.userId == u.uid) = 1 ∧
        ∀ p ∈ room.participants, (p.userId == u.uid) = true →
          p.isActive = true := by
  cases hf : findRoom db roomName with
  | none =>
    have hjr : RoomService.joinRoom db roomName u n1
        = .ok (saveRoom db (RoomService.newRoomFor roomName u n1)) := by
      simp [RoomService.joinRoom, hf]
    have hdb' : db' = saveRoom db (RoomService.newRoomFor roomName u n1) := by
      rw [hjr] at h1
      injection h1 with h
      exact h.symm
    refine joinRoom_second_join db' roomName u n2
      (RoomService.newRoomFor roomName u n1) rfl rfl ?_ ?_
    · simp [RoomService.newRoomFor, List.countP_cons]
    · rw [hdb']
      exact findRoom_saveRoom_self db _
  | some room =>
    have hroomname : room.name = roomName := findRoom_name db roomName room hf
    have hcount : room.participants.countP (fun p => p.userId == u.uid) ≤ 1 :=
      hpre room hf
    cases hje : RoomService.joinExisting room u n1 with
    | error e =>
      exfalso
      have hjr : RoomService.joinRoom db roomName u n1 = .error e := by
        simp [RoomService.joinRoom, hf, hje]
      rw [hjr] at h1
      exact absurd h1 (by simp)
    | ok room1 =>
      have hjr : RoomService.joinRoom db roomName u n1
          = .ok (saveRoom db room1) := by
        simp [RoomService.joinRoom, hf, hje]
      have hdb' : db' = saveRoom db room1 := by
        rw [hjr] at h1
        injection h1 with h
        exact h.symm
      unfold RoomService.joinExisting at hje
      by_cases hact : room.isActive = true
      · rw [if_neg (by simp [hact])] at hje
        by_cases hany : room.participants.any (fun p => p.userId == u.uid) = true
        · rw [if_pos hany] at hje
          have hroom1 : room1 = flipRoom room u.uid n1 := by
            injection hje with h
            rw [← h]
            rfl
          obtain ⟨hc, _⟩ := flip_unique_active room.participants u.uid n1
            hcount hany
          refine joinRoom_second_join db' roomName u n2 room1 ?_ ?_ ?_ ?_
          · rw [hroom1]; exact hroomname
          · rw [hroom1]; exact hact
          · rw [hroom1]; exact hc
          · rw [hdb']
            have hn : room1.name = roomName := by rw [hroom1]; exact hroomname
            rw [← hn]
            exact findRoom_saveRoom_self db room1
        · rw [if_neg hany] at hje
          have hanyf : room.participants.any (fun p => p.userId == u.uid)
              = false := Bool.eq_false_iff.mpr hany
          have hc0 : room.participants.countP (fun p => p.userId == u.uid) = 0 :=
            List.countP_eq_zero.mpr (List.any_eq_false.mp hanyf)
          by_cases hcap : (room.participants.filter (·.isActive)).length
              ≥ RoomService.effMax room
          · rw [if_pos hcap] at hje
            exact absurd hje (by simp)
          · rw [if_neg hcap] at hje
            have hroom1 : room1
                = { room with
                    participants := room.participants
                      ++ [RoomService.newMember u n1],
                    lastActivity := n1 } := by
              injection hje with h
              exact h.symm
            refine joinRoom_second_join db' roomName u n2 room1 ?_ ?_ ?_ ?_
            · rw [hroom1]; exact hroomname
            · rw [hroom1]; exact hact
            · rw [hroom1]
              simp [List.countP_append, hc0, List.countP_cons,
                RoomService.newMember]
            · rw [hdb']
              have hn : room1.name = roomName := by rw [hroom1]; exact hroomname
              rw [← hn]
              exact findRoom_saveRoom_self db room1
      · have hact' : room.isActive = false := by simpa using hact
        rw [if_pos (by simp [hact'])] at hje
        exact absurd hje (by simp)

/-- C5 witness: joining `general` twice from an empty store leaves one
active entry for the user. -/
theorem joinRoom_idempotent_witness :
    ∃ db'', RoomService.joinRoom
        [RoomService.newRoomFor "general" Demo.userA 1] "general"
        Demo.userA 2 = .ok db'' ∧
      ∃ room, findRoom db'' "general" = some room ∧
        room.participants.countP (fun p => p.userId == Demo.userA.uid) = 1 ∧
        ∀ p ∈ room.participants, (p.userId == Demo.userA.uid) = true →
          p.isActive = true :=
  joinRoom_idempotent [] "general" Demo.userA 1 2
    (by intro room h; simp [findRoom] at h) _ rfl

/-- The arguments of one `add_reaction` call. -/
structure ReactOp where
  userId : String
  username : String
  emoji : String
  time : Nat
deriving Repr, DecidableEq

/-- A sequence of `addReaction` calls applied to a message's reactions
array in order. -/
def applyReactions (rs : List Reaction) (ops : List ReactOp) : List Reaction :=
  ops.foldl (fun acc op =>
    MessageService.addReactionList acc op.userId op.username op.emoji op.time) rs

theorem countP_addReactionList_self (rs : List Reaction) (op : ReactOp) :
    (MessageService.addReactionList rs op.userId op.username op.emoji
        op.time).countP (fun r => r.userId == op.userId) = 1 := by
  unfold MessageService.addReactionList
  rw [List.countP_append, List.countP_filter]
  have h0 : rs.countP
      (fun r => (r.userId == op.userId) && !(r.userId == op.userId)) = 0 :=
    List.countP_eq_zero.mpr (by intro a _; simp)
  rw [h0]
  simp [List.countP_cons]

theorem addReactionList_other (rs : List Reaction) (u un e : String) (t : Nat)
    (v : String) (hv : v ≠ u) :
    ((MessageService.addReactionList rs u un e t).countP
        (fun r => r.userId == v) = rs.countP (fun r => r.userId == v)) ∧
    (∀ x : Reaction, x.userId = v →
        (x ∈ MessageService.addReactionList rs u un e t ↔ x ∈ rs)) := by
  unfold MessageService.addReactionList
  constructor
  · rw [List.countP_append, List.countP_filter]
    have h1 : rs.countP (fun r => (r.userId == v) && !(r.userId == u))
        = rs.countP (fun r => r.userId == v) := by
      apply List.countP_congr
      intro a _
      by_cases ha : a.userId = v
      · simp [ha, hv]
      · simp [ha]
    rw [h1]
    have h2 : List.countP (fun r => r.userId == v)
        [({ userId := u, username := un, emoji := e, timestamp := t } : Reaction)]
        = 0 := by
      simp [List.countP_cons]
      intro h
      exact absurd h.symm hv
    rw [h2]
    omega
  · intro x hx
    constructor
    · intro hmem
      rcases List.mem_append.mp hmem with h1 | h2
      · exact (List.mem_filter.mp h1).1
      · rcases List.mem_cons.mp h2 with rfl | h3
        · exact absurd hx.symm hv
        · simp at h3
    · intro hmem
      apply List.mem_append_left
      apply List.mem_filter.mpr
      refine ⟨hmem, ?_⟩
      simp [hx, hv]

/-- C8: after any sequence of `addReaction` operations on a message's
initially empty reactions array, the array holds at most one entry per
distinct user id, and the entry of a user who reacted is exactly their
most recent reaction — last write wins. -/
theorem reactions_last_write_wins (ops : List ReactOp) (u : String) :
    ((applyReactions [] ops).countP (fun r => r.userId == u) ≤ 1) ∧
    (∀ lop, (ops.filter (fun op => op.userId == u)).getLast? = some lop →
        (applyReactions [] ops).countP (fun r => r.userId == u) = 1 ∧
        ({ userId := lop.userId, username := lop.username, emoji := lop.emoji,
           timestamp := lop.time } : Reaction) ∈ applyReactions [] ops) := by
  induction ops using List.reverseRecOn with
  | nil => simp [applyReactions]
  | append_singleton ops op ih =>
    have happ : applyReactions [] (ops ++ [op])
        = MessageService.addReactionList (applyReactions [] ops) op.userId
            op.username op.emoji op.time := by
      unfold applyReactions
      rw [List.foldl_append]
      rfl
    by_cases hu : op.userId = u
    · subst hu
      have hc1 := countP_addReactionList_self (applyReactions [] ops) op
      have hfilt : (ops ++ [op]).filter (fun o => o.userId == op.userId)
          = ops.filter (fun o => o.userId == op.userId) ++ [op] := by
        rw [List.filter_append]
        simp
      refine ⟨by rw [happ]; exact le_of_eq hc1, ?_⟩
      intro lop hlast
      rw [hfilt, List.getLast?_concat] at hlast
      injection hlast with hlop
      subst hlop
      refine ⟨by rw [happ]; exact hc1, ?_⟩
      rw [happ]
      unfold MessageService.addReactionList
      exact List.mem_append_right _ (by simp)
    · have hother := addReactionList_other (applyReactions [] ops)
        op.userId op.username op.emoji op.time u (fun h => hu h.symm)
      have hfilt : (ops ++ [op]).filter (fun o => o.userId == u)
          = ops.filter (fun o => o.userId == u) := by
        rw [List.filter_append]
        simp [hu]
      refine ⟨by rw [happ, hother.1]; exact ih.1, ?_⟩
      intro lop hlast
      rw [hfilt] at hlast
      obtain ⟨hc, hmem⟩ := ih.2 lop hlast
      have hlu : lop.userId = u := by
        have hm := List.mem_of_getLast?_eq_some hlast
        simpa using (List.mem_filter.mp hm).2
      refine ⟨by rw [happ, hother.1]; exact hc, ?_⟩
      rw [happ]
      exact (hother.2 _ (by simpa using hlu)).mpr hmem

/-- C8 witness: two reactions by the same user leave a single entry
carrying the second emoji. -/
theorem reactions_last_write_wins_witness :
    (applyReactions []
        [⟨"u1", "alice", "like", 1⟩, ⟨"u1", "alice", "heart", 2⟩]).countP
        (fun r => r.userId == "u1") = 1 ∧
    ({ userId := "u1", username := "alice", emoji := "heart",
       timestamp := 2 } : Reaction)
      ∈ applyReactions []
          [⟨"u1", "alice", "like", 1⟩, ⟨"u1", "alice", "heart", 2⟩] :=
  (reactions_last_write_wins
      [⟨"u1", "alice", "like", 1⟩, ⟨"u1", "alice", "heart", 2⟩] "u1").2
    ⟨"u1", "alice", "heart", 2⟩ (by decide)

/-- C4 (amended): the socket `send_message` path performs no mention
extraction — with no explicit mentions list the persisted mentions are
empty and no `mention` notification is emitted; `@word` extraction, and
the per-mention `sendToUser` notification that consults only the
session registry (never room membership), happen only in the HTTP
message-creation route. -/
theorem mentions_extracted_only_in_http_route (connected : Registry)
    (persistOk : Bool) (sock : String) (sender : AuthUser)
    (mid text : String) (room replyTo : Option String) (now : Nat) :
    (∀ res, Handlers.createMessage persistOk mid text sender room replyTo
        none now = .ok res → res.1.mentions = []) ∧
    (∀ e ∈ Handlers.handleSendMessage persistOk sock sender mid text room
        replyTo none now, Emit.event e ≠ "mention") ∧
    (text.toList.contains '@' = true →
        (Handlers.httpSendMessage connected text none).1
          = MessageService.extractMentions text) ∧
    ((Handlers.httpSendMessage connected text none).2
        = (((Handlers.finalMentions none text).getD []).map
            (fun m => SocketService.sendToUser connected m "mention")).flatten) := by
  refine ⟨?_, ?_, ?_, rfl⟩
  · intro res h
    cases persistOk with
    | false => exact absurd h (by simp [Handlers.createMessage])
    | true =>
      cases room with
      | none =>
        unfold Handlers.createMessage at h
        simp only [Bool.not_true, Bool.false_eq_true, if_false] at h
        injection h with h'
        rw [← h']
        rfl
      | some rm =>
        unfold Handlers.createMessage at h
        simp only [Bool.not_true, Bool.false_eq_true, if_false] at h
        injection h with h'
        rw [← h']
        rfl
  · cases persistOk <;> cases room <;>
      simp [Handlers.handleSendMessage, Handlers.createMessage, Emit.event]
  · intro h
    have h' : '@' ∈ text.data := by simpa using h
    simp [Handlers.httpSendMessage, Handlers.finalMentions, h']

/-- C4 witness: on the concrete content `hello @bob` the HTTP route
persists the extracted mention list. -/
theorem mentions_http_route_witness :
    (Handlers.httpSendMessage Demo.idxConn "hello @bob" none).1
      = MessageService.extractMentions "hello @bob" :=
  (mentions_extracted_only_in_http_route Demo.idxConn true "s1" Demo.userA
    "m1" "hello @bob" none none 3).2.2.1 (by decide)

/-- The user-id group a room grouping holds for a room (empty when the
room key is absent). -/
def roomUsers (acc : List (String × List String)) (r : String) : List String :=
  match acc.find? (fun e => e.1 == r) with
  | some e => e.2
  | none => []

theorem roomUsers_cons_eq (e : String × List String)
    (es : List (String × List String)) (r : String)
    (h : (e.1 == r) = true) : roomUsers (e :: es) r = e.2 := by
  unfold roomUsers
  simp [List.find?_cons, h]

theorem roomUsers_cons_ne (e : String × List String)
    (es : List (String × List String)) (r : String)
    (h : (e.1 == r) = false) : roomUsers (e :: es) r = roomUsers es r := by
  unfold roomUsers
  simp [List.find?_cons, h]

theorem roomUsers_addToRoomStats (acc : List (String × List String))
    (room uid r : String) :
    roomUsers (SocketService.addToRoomStats acc room uid) r
      = if r = room then
          (if (roomUsers acc room).contains uid then roomUsers acc room
           else roomUsers acc room ++ [uid])
        else roomUsers acc r := by
  induction acc with
  | nil =>
    by_cases hr : r = room
    · subst hr
      simp [SocketService.addToRoomStats, roomUsers, List.find?]
    · rw [if_neg hr]
      unfold SocketService.addToRoomStats roomUsers
      simp [List.find?_cons, show (room == r) = false by
        simp
        exact fun h => hr h.symm]
  | cons e es ih =>
    unfold SocketService.addToRoomStats
    by_cases he : (e.1 == room) = true
    · rw [if_pos he]
      by_cases hr : r = room
      · subst hr
        rw [roomUsers_cons_eq _ _ _ he, if_pos rfl]
        unfold roomUsers
        simp [List.find?_cons, he]
      · rw [if_neg hr]
        have hner : (e.1 == r) = false := by
          have he2 : e.1 = room := by simpa using he
          simp [he2]
          exact fun h => hr h.symm
        rw [roomUsers_cons_ne _ _ _ hner]
        unfold roomUsers
        simp [List.find?_cons, hner]
    · rw [if_neg he]
      have he2 : (e.1 == room) = false := by simpa using he
      by_cases hr : r = e.1
      · have hrroom : ¬ r = room := by
          intro h
          have h3 : e.1 = room := hr.symm.trans h
          simp [h3] at he2
        have heq : (e.1 == r) = true := by simp [hr]
        rw [if_neg hrroom, roomUsers_cons_eq _ _ _ heq,
            roomUsers_cons_eq e es r heq]
      · have hner : (e.1 == r) = false := by
          simp
          exact fun h => hr h.symm
        rw [roomUsers_cons_ne _ _ _ hner, ih]
        by_cases hrm : r = room
        · subst hrm
          rw [if_pos rfl, if_pos rfl, roomUsers_cons_ne e es r hner]
        · rw [if_neg hrm, if_neg hrm, roomUsers_cons_ne e es r hner]

theorem roomUsers_foldRooms (rooms : List String) (uid : String)
    (acc : List (String × List String))
    (hnd : rooms.Nodup)
    (hfresh : ∀ x ∈ rooms, uid ∉ roomUsers acc x) :
    ∀ r, roomUsers
        (rooms.foldl (fun a rm => SocketService.addToRoomStats a rm uid) acc) r
      = if r ∈ rooms then roomUsers acc r ++ [uid] else roomUsers acc r := by
  induction rooms generalizing acc with
  | nil => intro r; simp
  | cons r0 rest ih =>
    intro r
    rw [List.foldl_cons]
    have hfresh0 : (roomUsers acc r0).contains uid = false := by
      have := hfresh r0 (List.mem_cons_self _ _)
      simpa using this
    have hacc : ∀ x, roomUsers (SocketService.addToRoomStats acc r0 uid) x
        = if x = r0 then roomUsers acc r0 ++ [uid] else roomUsers acc x := by
      intro x
      rw [roomUsers_addToRoomStats]
      by_cases hx : x = r0
      · rw [if_pos hx, if_pos hx, hfresh0]
        simp
      · rw [if_neg hx, if_neg hx]
    have hr0rest : r0 ∉ rest := (List.nodup_cons.mp hnd).1
    have hfresh2 : ∀ x ∈ rest,
        uid ∉ roomUsers (SocketService.addToRoomStats acc r0 uid) x := by
      intro x hx
      rw [hacc x, if_neg (fun (hxx : x = r0) => hr0rest (hxx ▸ hx))]
      exact hfresh x (List.mem_cons_of_mem _ hx)
    rw [ih (SocketService.addToRoomStats acc r0 uid)
      (List.nodup_cons.mp hnd).2 hfresh2 r]
    by_cases hrest : r ∈ rest
    · have hne : ¬ r = r0 := fun hxx => hr0rest (hxx ▸ hrest)
      rw [if_pos hrest, if_pos (List.mem_cons_of_mem _ hrest), hacc r,
          if_neg hne]
    · by_cases hr0 : r = r0
      · subst hr0
        rw [if_neg hrest, if_pos (List.mem_cons_self _ _), hacc r, if_pos rfl]
      · rw [if_neg hrest, hacc r, if_neg hr0,
          if_neg (by
            intro hmem
            rcases List.mem_cons.mp hmem with h1 | h2
            · exact hr0 h1
            · exact hrest h2)]

theorem roomUsers_collect_aux (ms : MembershipIndex)
    (acc : List (String × List String))
    (hU : (ms.map Prod.fst).Nodup)
    (hR : ∀ m ∈ ms, m.2.Nodup)
    (hfresh : ∀ r u, u ∈ roomUsers acc r → u ∉ ms.map Prod.fst) :
    ∀ r, roomUsers
        (ms.foldl (fun a m =>
          m.2.foldl (fun a2 rm => SocketService.addToRoomStats a2 rm m.1) a)
          acc) r
      = roomUsers acc r
          ++ (ms.filter (fun m => m.2.contains r)).map Prod.fst := by
  induction ms generalizing acc with
  | nil => intro r; simp
  | cons m rest ih =>
    intro r
    rw [List.foldl_cons]
    have hmnodup : m.2.Nodup := hR m (List.mem_cons_self _ _)
    have hm_head : m.1 ∈ (m :: rest).map Prod.fst := by simp
    have hfreshm : ∀ x ∈ m.2, m.1 ∉ roomUsers acc x := by
      intro x _ hmem
      exact hfresh x m.1 hmem hm_head
    have hB := roomUsers_foldRooms m.2 m.1 acc hmnodup hfreshm
    rw [List.map_cons] at hU
    have hm_not : m.1 ∉ rest.map Prod.fst := (List.nodup_cons.mp hU).1
    have hfresh2 : ∀ x u,
        u ∈ roomUsers
          (m.2.foldl (fun a2 rm => SocketService.addToRoomStats a2 rm m.1) acc)
          x →
        u ∉ rest.map Prod.fst := by
      intro x u hu
      rw [hB x] at hu
      by_cases hx : x ∈ m.2
      · rw [if_pos hx] at hu
        rcases List.mem_append.mp hu with h1 | h2
        · intro hmem
          exact hfresh x u h1 (by simp [hmem])
        · have hum : u = m.1 := by simpa using h2
          subst hum
          exact hm_not
      · rw [if_neg hx] at hu
        intro hmem
        exact hfresh x u hu (by simp [hmem])
    rw [ih (m.2.foldl (fun a2 rm => SocketService.addToRoomStats a2 rm m.1) acc)
      (List.nodup_cons.mp hU).2
      (fun x hx => hR x (List.mem_cons_of_mem _ hx)) hfresh2 r]
    rw [hB r, List.filter_cons]
    by_cases hr : r ∈ m.2
    · have hcont : m.2.contains r = true := by simpa using hr
      rw [if_pos hr]
      simp only [hcont, if_true, List.map_cons]
      rw [List.append_assoc]
      rfl
    · have hcont : m.2.contains r = false := by simpa using hr
      rw [if_neg hr]
      simp only [hcont, Bool.false_eq_true, if_false]

/-- C9 (amended): `getRoomStats` is computed from the session registry —
its `userCount` counts the connected sessions whose `room` field equals
the queried room — while `getAllActiveRooms` groups by inverting the
Room Membership Index: under the index's shape invariants (one entry per
user, each holding a set of rooms), the user-id group it computes for a
room is exactly the users whose subscription set contains that room.
The two functions therefore read different state and their groupings can
disagree. -/
theorem getRoomStats_registry_vs_index_grouping (connected : Registry)
    (ms : MembershipIndex) (r : String)
    (hU : (ms.map Prod.fst).Nodup)
    (hR : ∀ m ∈ ms, m.2.Nodup) :
    (SocketService.getRoomStats connected r).userCount
        = connected.countP (fun su => su.2.room == some r) ∧
    roomUsers (SocketService.collectRoomStats ms) r
        = (ms.filter (fun m => m.2.contains r)).map Prod.fst ∧
    SocketService.getAllActiveRooms connected ms
        = (SocketService.collectRoomStats ms).map (fun e =>
            { room := e.1, userCount := e.2.length,
              users := e.2.map (SocketService.usernameOf connected) }) := by
  refine ⟨?_, ?_, rfl⟩
  · show (getUsersInRoom connected r).length = _
    unfold getUsersInRoom
    rw [← List.countP_eq_length_filter, List.countP_map]
    rfl
  · unfold SocketService.collectRoomStats
    have h := roomUsers_collect_aux ms [] hU hR
      (by intro r' u hmem; simp [roomUsers] at hmem) r
    simpa using h

/-- C9 witness: on the concrete one-session, one-subscription state the
registry-side characterisation of `getRoomStats` holds. -/
theorem getRoomStats_registry_witness :
    (SocketService.getRoomStats Demo.idxConn "general").userCount
      = List.countP (fun su => su.2.room == some "general") Demo.idxConn :=
  (getRoomStats_registry_vs_index_grouping Demo.idxConn Demo.idxMems "general"
    (by decide) (by decide)).1

end Chatapp
